import Mathlib

set_option maxRecDepth 10000

/-!
Verification of the Engram memory engine (package `store`).

Go strings are modelled byte-wise as `List Char`, one `Char` per byte
(`len`, slicing and SQLite text ordering are therefore `List.length`,
`List.take` and lexicographic comparison).  The redaction pattern
`(?is)<private>.*?</private>` consists of ASCII literals whose
case-insensitive matching over UTF-8 encoded text coincides with
byte-level matching, so the byte model is faithful for it; `strings.TrimSpace`
is modelled on its ASCII fast path.  The SQLite database is modelled as a
record of tables (lists of rows) plus the AUTOINCREMENT counters, and each
store operation is translated into a pure state transformer following the
SQL statements of the source.  The FTS5 MATCH/rank engine is external to the
repository and is passed to `Search` as an oracle.
-/

namespace Engram

/-- ASCII lower-casing, the case folding relevant to the pattern
`(?i)<private>...</private>` (none of its letters has a non-ASCII
simple fold partner). -/
def lcase (c : Char) : Char :=
  if 'A' ≤ c ∧ c ≤ 'Z' then Char.ofNat (c.toNat + 32) else c

/-- ASCII whitespace recognised by `strings.TrimSpace` (fast path). -/
def goIsSpace (c : Char) : Bool :=
  c = ' ' || c = '\t' || c = '\n' || c = '\x0b' || c = '\x0c' || c = '\r'

/-- Case-insensitive "`pat` is an initial segment of `s`". -/
def startsWithCI : List Char → List Char → Bool
  | [], _ => true
  | _ :: _, [] => false
  | p :: ps, c :: cs => lcase p == lcase c && startsWithCI ps cs

/-- Index of the leftmost case-insensitive occurrence of `pat` in `s`. -/
def findCI (pat : List Char) : List Char → Option Nat
  | [] => if startsWithCI pat [] then some 0 else none
  | c :: cs => if startsWithCI pat (c :: cs) then some 0 else (findCI pat cs).map (· + 1)

/-- `pat` occurs (case-insensitively) at position `p` of `s`. -/
def occursAt (pat s : List Char) (p : Nat) : Prop :=
  startsWithCI pat (s.drop p) = true

/-- The literal opening delimiter of `privateTagRegex`. -/
def openTag : List Char := "<private>".data

/-- The literal closing delimiter of `privateTagRegex`. -/
def closeTag : List Char := "</private>".data

/-- The replacement token of `stripPrivateTags`. -/
def redacted : List Char := "[REDACTED]".data

/-- The suffix appended by `AddObservation`/`AddPrompt` when truncating. -/
def truncMarker : List Char := "... [truncated]".data

/-- No match of `(?is)<private>.*?</private>` exists in `s`: every closing
delimiter occurrence ends before any opening delimiter could be completed. -/
def NoMatch (s : List Char) : Prop :=
  ∀ p q, occursAt openTag s p → occursAt closeTag s q → q < p + openTag.length

/-- `regexp.ReplaceAllString(s, "[REDACTED]")` for the non-greedy pattern
`(?is)<private>.*?</private>`: repeatedly locate the leftmost `<private>`,
the earliest `</private>` after it, splice in `[REDACTED]`, and continue
after the match.  `fuel` bounds the recursion (the input length suffices). -/
def replaceAllF : Nat → List Char → List Char
  | 0, s => s
  | fuel + 1, s =>
    match findCI openTag s with
    | none => s
    | some i =>
      match findCI closeTag (s.drop (i + openTag.length)) with
      | none => s
      | some k =>
        s.take i ++ redacted ++
          replaceAllF fuel ((s.drop (i + openTag.length)).drop (k + closeTag.length))

/-- `privateTagRegex.ReplaceAllString(s, "[REDACTED]")`. -/
def replaceAll (s : List Char) : List Char :=
  replaceAllF s.length s

/-- `strings.TrimSpace` (ASCII fast path): drop whitespace from both ends. -/
def trimSpace (s : List Char) : List Char :=
  List.rdropWhile goIsSpace (List.dropWhile goIsSpace s)

/-- `stripPrivateTags` from the source: replace every `<private>...</private>`
span with `[REDACTED]`, then trim surrounding whitespace. -/
def stripPrivateTags (s : List Char) : List Char :=
  trimSpace (replaceAll s)

/-- Decidable companion of `NoMatch`: does the pattern match somewhere? -/
def hasMatch (s : List Char) : Bool :=
  match findCI openTag s with
  | none => false
  | some i => (findCI closeTag (s.drop (i + openTag.length))).isSome

/-- Case-sensitive substring test (used to state flaws of the redactor). -/
def containsStr (pat : List Char) : List Char → Bool
  | [] => pat.isEmpty
  | c :: cs => (pat.isPrefixOf (c :: cs)) || containsStr pat cs

/-- Lexicographic byte order on TEXT values (SQLite BINARY collation). -/
def strLeB : List Char → List Char → Bool
  | [], _ => true
  | _ :: _, [] => false
  | a :: as, b :: bs => if a = b then strLeB as bs else decide (a < b)

/-- `truncate` from the source: cut to `max` bytes and append `"..."`. -/
def truncate (s : List Char) (max : Nat) : List Char :=
  if s.length ≤ max then s else s.take max ++ "...".data

/-- `nullableString`: empty strings are stored as SQL NULL. -/
def nullableString (s : List Char) : Option (List Char) :=
  if s.isEmpty then none else some s

/-- A row of the `sessions` table. -/
structure SessionRow where
  id : List Char
  project : List Char
  directory : List Char
  startedAt : List Char
  endedAt : Option (List Char)
  summary : Option (List Char)
deriving DecidableEq

/-- A row of the `observations` table (`id` is the AUTOINCREMENT key). -/
structure ObsRow where
  id : Nat
  sessionId : List Char
  type : List Char
  title : List Char
  content : List Char
  toolName : Option (List Char)
  project : Option (List Char)
  createdAt : List Char
deriving DecidableEq

/-- A row of the `user_prompts` table. -/
structure PromptRow where
  id : Nat
  sessionId : List Char
  content : List Char
  project : Option (List Char)
  createdAt : List Char
deriving DecidableEq

/-- `SessionSummary` as returned by `RecentSessions`. -/
structure SessionSummary where
  id : List Char
  project : List Char
  startedAt : List Char
  endedAt : Option (List Char)
  summary : Option (List Char)
  observationCount : Nat
deriving DecidableEq

/-- The engine configuration (numeric limits; `DataDir` is filesystem-only). -/
structure Config where
  MaxObservationLength : Nat
  MaxContextResults : Nat
  MaxSearchResults : Nat
deriving DecidableEq

/-- `DefaultConfig` from the source. -/
def DefaultConfig : Config :=
  { MaxObservationLength := 2000, MaxContextResults := 20, MaxSearchResults := 20 }

/-- The SQLite database state: the four tables plus AUTOINCREMENT counters. -/
structure DB where
  sessions : List SessionRow
  observations : List ObsRow
  prompts : List PromptRow
  syncChunks : List (List Char)
  nextObsId : Nat
  nextPromptId : Nat
deriving DecidableEq

/-- A freshly migrated database (AUTOINCREMENT keys start at 1). -/
def initDB : DB :=
  { sessions := [], observations := [], prompts := [], syncChunks := [],
    nextObsId := 1, nextPromptId := 1 }

/-- Parameters of `AddObservation`. -/
structure AddObservationParams where
  sessionId : List Char
  type : List Char
  title : List Char
  content : List Char
  toolName : List Char
  project : List Char
deriving DecidableEq

/-- Parameters of `AddPrompt`. -/
structure AddPromptParams where
  sessionId : List Char
  content : List Char
  project : List Char
deriving DecidableEq

/-- `CreateSession`: `INSERT OR IGNORE INTO sessions` — a conflict on the
primary key leaves the table unchanged, `started_at` defaults to now. -/
def CreateSession (db : DB) (id project directory now : List Char) : DB :=
  if db.sessions.any (fun r => r.id == id) then db
  else { db with sessions := db.sessions ++ [⟨id, project, directory, now, none, none⟩] }

/-- `EndSession`: `UPDATE sessions SET ended_at = now, summary = ? WHERE id = ?`
(an empty summary is stored as NULL; zero matched rows is not an error). -/
def EndSession (db : DB) (id summary now : List Char) : DB :=
  { db with sessions := db.sessions.map (fun r =>
      if r.id == id then { r with endedAt := some now, summary := nullableString summary } else r) }

/-- `GetSession`: single-row lookup, `none` models `sql.ErrNoRows`. -/
def GetSession (db : DB) (id : List Char) : Option SessionRow :=
  db.sessions.find? (fun s => s.id == id)

/-- `GetObservation`: single-row lookup, `none` models `sql.ErrNoRows`. -/
def GetObservation (db : DB) (id : Nat) : Option ObsRow :=
  db.observations.find? (fun o => o.id == id)

/-- `AddObservation`: strip `<private>` tags from title and content, truncate
the content to `MaxObservationLength` bytes with a `"... [truncated]"` suffix,
insert, and return the new AUTOINCREMENT row id. -/
def AddObservation (cfg : Config) (db : DB) (p : AddObservationParams) (now : List Char) :
    DB × Nat :=
  let title := stripPrivateTags p.title
  let content0 := stripPrivateTags p.content
  let content :=
    if content0.length > cfg.MaxObservationLength then
      content0.take cfg.MaxObservationLength ++ truncMarker
    else content0
  ({ db with
      observations := db.observations ++
        [⟨db.nextObsId, p.sessionId, p.type, title, content,
          nullableString p.toolName, nullableString p.project, now⟩],
      nextObsId := db.nextObsId + 1 },
   db.nextObsId)

/-- `AddPrompt`: same redaction and truncation budget as `AddObservation`. -/
def AddPrompt (cfg : Config) (db : DB) (p : AddPromptParams) (now : List Char) : DB × Nat :=
  let content0 := stripPrivateTags p.content
  let content :=
    if content0.length > cfg.MaxObservationLength then
      content0.take cfg.MaxObservationLength ++ truncMarker
    else content0
  ({ db with
      prompts := db.prompts ++
        [⟨db.nextPromptId, p.sessionId, content, nullableString p.project, now⟩],
      nextPromptId := db.nextPromptId + 1 },
   db.nextPromptId)

/-- Observations of one session (`COUNT(o.id)` of the LEFT JOIN). -/
def sessionObsCount (db : DB) (sid : List Char) : Nat :=
  (db.observations.filter (fun o => o.sessionId == sid)).length

/-- The session rows matching the optional project filter (`WHERE 1=1` plus
`AND s.project = ?` when the project argument is non-empty). -/
def sessionsFor (db : DB) (project : List Char) : List SessionRow :=
  if project.isEmpty then db.sessions
  else db.sessions.filter (fun s => s.project == project)

/-- The observation rows matching the optional project filter. -/
def obsFor (db : DB) (project : List Char) : List ObsRow :=
  if project.isEmpty then db.observations
  else db.observations.filter (fun o => o.project == some project)

/-- The prompt rows matching the optional project filter. -/
def promptsFor (db : DB) (project : List Char) : List PromptRow :=
  if project.isEmpty then db.prompts
  else db.prompts.filter (fun p => p.project == some project)

/-- `RecentSessions`: optional project filter, `ORDER BY started_at DESC
LIMIT ?` (limit defaults to 5), with observation counts. -/
def RecentSessions (db : DB) (project : List Char) (limit : Int) : List SessionSummary :=
  let lim := if limit ≤ 0 then (5 : Int) else limit
  let ss := sessionsFor db project
  ((List.insertionSort (fun a b : SessionRow => strLeB b.startedAt a.startedAt = true) ss).take
      lim.toNat).map
    (fun s => ⟨s.id, s.project, s.startedAt, s.endedAt, s.summary, sessionObsCount db s.id⟩)

/-- `RecentObservations`: optional project filter, `ORDER BY created_at DESC
LIMIT ?` (limit defaults to `MaxContextResults`). -/
def RecentObservations (cfg : Config) (db : DB) (project : List Char) (limit : Int) :
    List ObsRow :=
  let lim := if limit ≤ 0 then (cfg.MaxContextResults : Int) else limit
  let rows := obsFor db project
  (List.insertionSort (fun a b : ObsRow => strLeB b.createdAt a.createdAt = true) rows).take
    lim.toNat

/-- `AllObservations` runs the same query as `RecentObservations`
(identical SQL and default in the source). -/
def AllObservations (cfg : Config) (db : DB) (project : List Char) (limit : Int) : List ObsRow :=
  RecentObservations cfg db project limit

/-- `SessionObservations`: all observations of one session,
`ORDER BY created_at ASC LIMIT ?` (limit defaults to 200). -/
def SessionObservations (db : DB) (sessionID : List Char) (limit : Int) : List ObsRow :=
  let lim := if limit ≤ 0 then (200 : Int) else limit
  (List.insertionSort (fun a b : ObsRow => strLeB a.createdAt b.createdAt = true)
      (db.observations.filter (fun o => o.sessionId == sessionID))).take lim.toNat

/-- `RecentPrompts`: optional project filter, `ORDER BY created_at DESC
LIMIT ?` (limit defaults to 20). -/
def RecentPrompts (db : DB) (project : List Char) (limit : Int) : List PromptRow :=
  let lim := if limit ≤ 0 then (20 : Int) else limit
  let rows := promptsFor db project
  (List.insertionSort (fun a b : PromptRow => strLeB b.createdAt a.createdAt = true) rows).take
    lim.toNat

/-- Options of `Search`. -/
structure SearchOptions where
  type : List Char
  project : List Char
  limit : Int
deriving DecidableEq

/-- `Search`: the FTS5 `MATCH`/`rank` engine is external to the repository and
is modelled as the oracle `fts` mapping a row to its rank when it matches the
(sanitized) query.  The limit defaults to 10 and is capped at
`MaxSearchResults`; results are ordered by rank ascending. -/
def Search (cfg : Config) (fts : ObsRow → Option Int) (db : DB) (opts : SearchOptions) :
    List (ObsRow × Int) :=
  let lim := if opts.limit ≤ 0 then (10 : Int) else opts.limit
  let lim := if lim > (cfg.MaxSearchResults : Int) then (cfg.MaxSearchResults : Int) else lim
  let matched := db.observations.filterMap (fun o => (fts o).map (fun r => (o, r)))
  let matched := if opts.type.isEmpty then matched
                 else matched.filter (fun x => x.1.type == opts.type)
  let matched := if opts.project.isEmpty then matched
                 else matched.filter (fun x => x.1.project == some opts.project)
  (List.insertionSort (fun a b : ObsRow × Int => a.2 ≤ b.2) matched).take lim.toNat

/-- The rows eligible for the before-window:
`session_id = sid AND id < pivot`. -/
def beforePool (db : DB) (sid : List Char) (pivot : Nat) : List ObsRow :=
  db.observations.filter (fun o => o.sessionId == sid && decide (o.id < pivot))

/-- The rows eligible for the after-window:
`session_id = sid AND id > pivot`. -/
def afterPool (db : DB) (sid : List Char) (pivot : Nat) : List ObsRow :=
  db.observations.filter (fun o => o.sessionId == sid && decide (pivot < o.id))

/-- `TimelineResult` (the `IsFocus` display flag of `TimelineEntry` carries no
data and is omitted; entries are observation rows). -/
structure TimelineResult where
  focus : ObsRow
  before : List ObsRow
  after : List ObsRow
  sessionInfo : Option SessionRow
  totalInRange : Nat
deriving DecidableEq

/-- `Timeline`: neighborhood of a pivot observation.  `before`/`after`
default to 5 when non-positive; the before window is
`session_id = pivot.session AND id < pivot ORDER BY id DESC LIMIT b`,
reversed to ascending; the after window is
`... AND id > pivot ORDER BY id ASC LIMIT a`; a missing session row is
non-fatal (`sessionInfo = none`); `none` models the NotFound error for a
missing pivot. -/
def Timeline (db : DB) (observationID : Nat) (before after : Int) : Option TimelineResult :=
  let b := if before ≤ 0 then (5 : Int) else before
  let a := if after ≤ 0 then (5 : Int) else after
  match GetObservation db observationID with
  | none => none
  | some focus =>
    let sess := GetSession db focus.sessionId
    let beforeRows := (List.insertionSort (fun x y : ObsRow => y.id ≤ x.id)
        (beforePool db focus.sessionId observationID)).take b.toNat
    let afterRows := (List.insertionSort (fun x y : ObsRow => x.id ≤ y.id)
        (afterPool db focus.sessionId observationID)).take a.toNat
    let total := sessionObsCount db focus.sessionId
    some ⟨focus, beforeRows.reverse, afterRows, sess, total⟩

/-- `RecordSyncedChunk`: `INSERT OR IGNORE INTO sync_chunks`. -/
def RecordSyncedChunk (db : DB) (chunkId : List Char) : DB :=
  if db.syncChunks.any (fun c => c == chunkId) then db
  else { db with syncChunks := db.syncChunks ++ [chunkId] }

/-- The serializable dump consumed by `Import`. -/
structure ExportData where
  version : List Char
  exportedAt : List Char
  sessions : List SessionRow
  observations : List ObsRow
  prompts : List PromptRow
deriving DecidableEq

/-- `ImportResult` tallies. -/
structure ImportCounts where
  sessionsImported : Nat
  observationsImported : Nat
  promptsImported : Nat
deriving DecidableEq

/-- `Import`: one transaction; sessions via `INSERT OR IGNORE` (counting rows
actually inserted), observations and prompts inserted verbatim with fresh
AUTOINCREMENT ids and their exported `created_at`. -/
def Import (db : DB) (d : ExportData) : DB × ImportCounts :=
  let s1 := d.sessions.foldl
    (fun (acc : DB × Nat) srow =>
      if acc.1.sessions.any (fun r => r.id == srow.id) then acc
      else ({ acc.1 with sessions := acc.1.sessions ++ [srow] }, acc.2 + 1))
    (db, 0)
  let s2 := d.observations.foldl
    (fun (acc : DB × Nat) orow =>
      ({ acc.1 with
          observations := acc.1.observations ++ [{ orow with id := acc.1.nextObsId }],
          nextObsId := acc.1.nextObsId + 1 }, acc.2 + 1))
    (s1.1, 0)
  let s3 := d.prompts.foldl
    (fun (acc : DB × Nat) prow =>
      ({ acc.1 with
          prompts := acc.1.prompts ++ [{ prow with id := acc.1.nextPromptId }],
          nextPromptId := acc.1.nextPromptId + 1 }, acc.2 + 1))
    (s2.1, 0)
  (s3.1, ⟨s1.2, s2.2, s3.2⟩)

/-- One engine operation of the store's write surface. -/
inductive Op where
  | createSession (id project directory now : List Char)
  | endSession (id summary now : List Char)
  | addObservation (p : AddObservationParams) (now : List Char)
  | addPrompt (p : AddPromptParams) (now : List Char)
  | importData (d : ExportData)
  | recordSyncedChunk (chunkId : List Char)

/-- Whether an operation is `Import`. -/
def Op.isImport : Op → Bool
  | .importData _ => true
  | _ => false

/-- Apply one operation to the database. -/
def applyOp (cfg : Config) (db : DB) : Op → DB
  | .createSession id project directory now => CreateSession db id project directory now
  | .endSession id summary now => EndSession db id summary now
  | .addObservation p now => (AddObservation cfg db p now).1
  | .addPrompt p now => (AddPrompt cfg db p now).1
  | .importData d => (Import db d).1
  | .recordSyncedChunk cid => RecordSyncedChunk db cid

/-- Run a sequence of engine operations. -/
def runOps (cfg : Config) (db : DB) (ops : List Op) : DB :=
  ops.foldl (applyOp cfg) db

/-- The value assembled by `Stats`. -/
structure StatsData where
  totalSessions : Nat
  totalObservations : Nat
  totalPrompts : Nat
  projects : List (List Char)
deriving DecidableEq

/-- `Stats` with its four underlying queries modelled as injectable outcomes
(`Except.error` = the database returned an error).  The source ignores the
`Scan` errors of the three counts (leaving the zero value), returns
`(stats, nil)` when the projects query fails, and skips projects rows whose
scan fails. -/
def statsOp (q1 q2 q3 : Except Unit Nat)
    (q4 : Except Unit (List (Except Unit (List Char)))) : Except Unit StatsData :=
  let t1 := match q1 with | .ok n => n | .error _ => 0
  let t2 := match q2 with | .ok n => n | .error _ => 0
  let t3 := match q3 with | .ok n => n | .error _ => 0
  match q4 with
  | .error _ => .ok ⟨t1, t2, t3, []⟩
  | .ok rows => .ok ⟨t1, t2, t3, rows.filterMap (fun r => r.toOption)⟩

/-- `FormatContext`: the digest of recent sessions, prompts and observations.
Section formats follow the source's `fmt.Fprintf` patterns. -/
def FormatContext (cfg : Config) (db : DB) (project : List Char) : List Char :=
  let sessions := RecentSessions db project 5
  let observations := RecentObservations cfg db project (cfg.MaxContextResults : Int)
  let prompts := RecentPrompts db project 10
  if sessions.isEmpty && observations.isEmpty && prompts.isEmpty then []
  else
    let b := "## Memory from Previous Sessions\n\n".data
    let b := if sessions.isEmpty then b
      else
        (b ++ "### Recent Sessions\n".data ++
          sessions.foldl (fun acc sess =>
            let summaryPart := match sess.summary with
              | none => []
              | some x => ": ".data ++ truncate x 200
            acc ++ "- **".data ++ sess.project ++ "** (".data ++ sess.startedAt ++ ")".data ++
              summaryPart ++ " [".data ++ Nat.toDigits 10 sess.observationCount ++
              " observations]\n".data) []) ++ "\n".data
    let b := if prompts.isEmpty then b
      else
        (b ++ "### Recent User Prompts\n".data ++
          prompts.foldl (fun acc p =>
            acc ++ "- ".data ++ p.createdAt ++ ": ".data ++ truncate p.content 200 ++
              "\n".data) []) ++ "\n".data
    let b := if observations.isEmpty then b
      else
        (b ++ "### Recent Observations\n".data ++
          observations.foldl (fun acc o =>
            acc ++ "- [".data ++ o.type ++ "] **".data ++ o.title ++ "**: ".data ++
              truncate o.content 300 ++ "\n".data) []) ++ "\n".data
    b

/-! ### Case-insensitive matching machinery -/

theorem startsWithCI_length {pat s : List Char} (h : startsWithCI pat s = true) :
    pat.length ≤ s.length := by
  induction pat generalizing s with
  | nil => simp
  | cons p ps ih =>
    cases s with
    | nil => simp [startsWithCI] at h
    | cons c cs =>
      simp only [startsWithCI, Bool.and_eq_true, beq_iff_eq] at h
      simpa [Nat.succ_le_succ_iff] using ih h.2

theorem startsWithCI_append {pat s : List Char} (t : List Char)
    (h : startsWithCI pat s = true) : startsWithCI pat (s ++ t) = true := by
  induction pat generalizing s with
  | nil => rfl
  | cons p ps ih =>
    cases s with
    | nil => simp [startsWithCI] at h
    | cons c cs =>
      simp only [List.cons_append, startsWithCI, Bool.and_eq_true] at h ⊢
      exact ⟨h.1, ih h.2⟩

theorem startsWithCI_of_append {pat s t : List Char}
    (h : startsWithCI pat (s ++ t) = true) (hlen : pat.length ≤ s.length) :
    startsWithCI pat s = true := by
  induction pat generalizing s with
  | nil => rfl
  | cons p ps ih =>
    cases s with
    | nil => simp at hlen
    | cons c cs =>
      simp only [List.cons_append, startsWithCI, Bool.and_eq_true] at h ⊢
      exact ⟨h.1, ih h.2 (by simpa [Nat.succ_le_succ_iff] using hlen)⟩

theorem startsWithCI_append_split {pat y : List Char} :
    ∀ {x : List Char}, startsWithCI pat (x ++ y) = true →
      startsWithCI (pat.drop x.length) y = true := by
  intro x
  induction x generalizing pat with
  | nil => intro h; simpa using h
  | cons c cs ih =>
    intro h
    cases pat with
    | nil => simp [startsWithCI]
    | cons p ps =>
      simp only [List.cons_append, startsWithCI, Bool.and_eq_true] at h
      simpa using ih h.2

/-! ### Occurrence transfer lemmas -/

theorem occursAt_length {pat s : List Char} {p : Nat} (hpat : pat ≠ [])
    (h : occursAt pat s p) : p + pat.length ≤ s.length := by
  have hl := startsWithCI_length h
  rw [List.length_drop] at hl
  rcases Nat.le_total p s.length with hp | hp
  · omega
  · exfalso
    apply hpat
    have hz : s.length - p = 0 := by omega
    rw [hz] at hl
    exact List.length_eq_zero.mp (Nat.le_zero.mp hl)

theorem occursAt_drop {pat s : List Char} {n p : Nat} :
    occursAt pat (s.drop n) p ↔ occursAt pat s (n + p) := by
  unfold occursAt
  rw [List.drop_drop]

theorem drop_append_left {a b : List Char} {p : Nat} (h : p ≤ a.length) :
    (a ++ b).drop p = a.drop p ++ b := by
  conv_lhs => rw [← List.take_append_drop p a, List.append_assoc]
  rw [List.drop_left' (by simp [Nat.min_eq_left h])]

theorem drop_append_right {a b : List Char} {p : Nat} (h : a.length ≤ p) :
    (a ++ b).drop p = b.drop (p - a.length) := by
  obtain ⟨k, hk⟩ : ∃ k, p = a.length + k := ⟨p - a.length, by omega⟩
  subst hk
  rw [Nat.add_sub_cancel_left, ← List.drop_drop, List.drop_left]

theorem occursAt_append_left {pat a : List Char} (b : List Char) {p : Nat}
    (h : occursAt pat a p) : occursAt pat (a ++ b) p := by
  by_cases hpat : pat = []
  · subst hpat; exact rfl
  · have hlen := occursAt_length hpat h
    unfold occursAt at h ⊢
    rw [drop_append_left (by omega)]
    exact startsWithCI_append _ h

theorem occursAt_append_right {pat b : List Char} (a : List Char) {p : Nat}
    (h : occursAt pat b p) : occursAt pat (a ++ b) (a.length + p) := by
  unfold occursAt at h ⊢
  rw [drop_append_right (by omega), Nat.add_sub_cancel_left]
  exact h

theorem occursAt_of_append_left {pat a b : List Char} {p : Nat}
    (h : occursAt pat (a ++ b) p) (hfit : p + pat.length ≤ a.length) :
    occursAt pat a p := by
  unfold occursAt at h ⊢
  rw [drop_append_left (by omega)] at h
  exact startsWithCI_of_append h (by simp; omega)

theorem occursAt_of_append_right {pat a b : List Char} {p : Nat}
    (h : occursAt pat (a ++ b) p) (hp : a.length ≤ p) :
    occursAt pat b (p - a.length) := by
  unfold occursAt at h ⊢
  rwa [drop_append_right hp] at h

theorem occursAt_take {pat s : List Char} {n p : Nat}
    (h : occursAt pat (s.take n) p) : occursAt pat s p := by
  have h2 := occursAt_append_left (s.drop n) h
  rwa [List.take_append_drop] at h2

/-- An occurrence of `pat` in `a ++ mid ++ b` cannot straddle `mid` when the
head of `pat` matches no character of `mid` and the head of `mid` matches no
character of `pat`: it lies wholly inside `a` or wholly past `mid`. -/
theorem occursAt_append_mid {pat a mid b : List Char} {p : Nat}
    (hpat : pat ≠ []) (hmid : mid ≠ [])
    (h1 : ∀ c ∈ mid, lcase c ≠ lcase (pat.headD ' '))
    (h2 : ∀ c ∈ pat, lcase c ≠ lcase (mid.headD ' '))
    (hocc : occursAt pat (a ++ (mid ++ b)) p) :
    p + pat.length ≤ a.length ∨ a.length + mid.length ≤ p := by
  by_contra hcon
  push_neg at hcon
  obtain ⟨hfit, hlt⟩ := hcon
  rcases Nat.lt_or_ge p a.length with hp | hp
  · -- the occurrence starts in `a` and covers the head of `mid`
    unfold occursAt at hocc
    rw [drop_append_left (by omega)] at hocc
    have hsplit := startsWithCI_append_split hocc
    rw [List.length_drop] at hsplit
    set k := a.length - p with hk
    have hkp : k < pat.length := by omega
    rw [List.drop_eq_getElem_cons hkp] at hsplit
    cases mid with
    | nil => exact hmid rfl
    | cons m mt =>
      simp only [List.cons_append, startsWithCI, Bool.and_eq_true, beq_iff_eq] at hsplit
      exact h2 _ (List.getElem_mem hkp) (by simpa using hsplit.1)
  · -- the occurrence starts inside `mid`
    unfold occursAt at hocc
    rw [drop_append_right hp] at hocc
    set d := p - a.length with hd
    have hdm : d < mid.length := by omega
    rw [drop_append_left (by omega), List.drop_eq_getElem_cons hdm] at hocc
    cases pat with
    | nil => exact hpat rfl
    | cons ph pt =>
      simp only [startsWithCI, Bool.and_eq_true, beq_iff_eq] at hocc
      exact h1 _ (List.getElem_mem hdm) (by simpa using hocc.1.symm)

/-! ### Soundness and completeness of `findCI` -/

theorem findCI_some {pat : List Char} :
    ∀ {s : List Char} {i : Nat}, findCI pat s = some i → occursAt pat s i := by
  intro s
  induction s with
  | nil =>
    intro i h
    cases hs : startsWithCI pat ([] : List Char) with
    | true =>
      simp [findCI, hs] at h
      subst h
      exact hs
    | false => simp [findCI, hs] at h
  | cons c cs ih =>
    intro i h
    cases hs : startsWithCI pat (c :: cs) with
    | true =>
      simp [findCI, hs] at h
      subst h
      exact hs
    | false =>
      simp only [findCI, hs, Bool.false_eq_true, if_false] at h
      rcases hf : findCI pat cs with _ | j
      · rw [hf] at h; simp at h
      · rw [hf] at h
        simp at h
        subst h
        show startsWithCI pat ((c :: cs).drop (j + 1)) = true
        rw [List.drop_succ_cons]
        exact ih hf

theorem findCI_min {pat : List Char} :
    ∀ {s : List Char} {i : Nat}, findCI pat s = some i →
      ∀ p, p < i → ¬ occursAt pat s p := by
  intro s
  induction s with
  | nil =>
    intro i h p hp
    cases hs : startsWithCI pat ([] : List Char) with
    | true => simp [findCI, hs] at h; omega
    | false => simp [findCI, hs] at h
  | cons c cs ih =>
    intro i h p hp hocc
    cases hs : startsWithCI pat (c :: cs) with
    | true => simp [findCI, hs] at h; omega
    | false =>
      simp only [findCI, hs, Bool.false_eq_true, if_false] at h
      rcases hf : findCI pat cs with _ | j
      · rw [hf] at h; simp at h
      · rw [hf] at h
        simp at h
        cases p with
        | zero => exact absurd hocc (by simp [occursAt, hs])
        | succ n =>
          have hn : occursAt pat cs n := by
            unfold occursAt at hocc ⊢
            rwa [List.drop_succ_cons] at hocc
          exact ih hf n (by omega) hn

theorem findCI_none {pat : List Char} :
    ∀ {s : List Char}, findCI pat s = none → ∀ p, ¬ occursAt pat s p := by
  intro s
  induction s with
  | nil =>
    intro h p hocc
    cases hs : startsWithCI pat ([] : List Char) with
    | true => simp [findCI, hs] at h
    | false =>
      unfold occursAt at hocc
      rw [List.drop_nil] at hocc
      exact absurd hocc (by simp [hs])
  | cons c cs ih =>
    intro h p hocc
    cases hs : startsWithCI pat (c :: cs) with
    | true => simp [findCI, hs] at h
    | false =>
      simp only [findCI, hs, Bool.false_eq_true, if_false] at h
      rcases hf : findCI pat cs with _ | j
      · cases p with
        | zero => exact absurd hocc (by simp [occursAt, hs])
        | succ n =>
          have hn : occursAt pat cs n := by
            unfold occursAt at hocc ⊢
            rwa [List.drop_succ_cons] at hocc
          exact ih hf n hn
      · rw [hf] at h; simp at h

theorem findCI_complete {pat : List Char} :
    ∀ {s : List Char} {p : Nat}, occursAt pat s p →
      ∃ i, findCI pat s = some i ∧ i ≤ p := by
  intro s
  induction s with
  | nil =>
    intro p hocc
    unfold occursAt at hocc
    rw [List.drop_nil] at hocc
    exact ⟨0, by simp [findCI, hocc], Nat.zero_le _⟩
  | cons c cs ih =>
    intro p hocc
    cases hs : startsWithCI pat (c :: cs) with
    | true => exact ⟨0, by simp [findCI, hs], Nat.zero_le _⟩
    | false =>
      cases p with
      | zero => exact absurd hocc (by simp [occursAt, hs])
      | succ n =>
        have hn : occursAt pat cs n := by
          unfold occursAt at hocc ⊢
          rwa [List.drop_succ_cons] at hocc
        obtain ⟨i, hi, hle⟩ := ih hn
        exact ⟨i + 1, by simp [findCI, hs, hi], by omega⟩

theorem findCI_eq_some_of {pat s : List Char} {j : Nat} (hocc : occursAt pat s j)
    (hmin : ∀ p, p < j → ¬ occursAt pat s p) : findCI pat s = some j := by
  obtain ⟨i, hi, hle⟩ := findCI_complete hocc
  rcases Nat.lt_or_ge i j with hij | hij
  · exact absurd (findCI_some hi) (hmin i hij)
  · have heq : i = j := by omega
    rwa [heq] at hi

/-! ### `NoMatch` closure properties -/

theorem openTag_ne_nil : openTag ≠ [] := by decide

theorem closeTag_ne_nil : closeTag ≠ [] := by decide

theorem openTag_length : openTag.length = 9 := by decide

theorem closeTag_length : closeTag.length = 10 := by decide

theorem redacted_length : redacted.length = 10 := by decide

theorem truncMarker_length : truncMarker.length = 15 := by decide

theorem noMatch_of_no_open {s : List Char} (h : ∀ p, ¬ occursAt openTag s p) : NoMatch s :=
  fun p _ hp _ => absurd hp (h p)

theorem NoMatch.take {s : List Char} (h : NoMatch s) (n : Nat) : NoMatch (s.take n) :=
  fun p q hp hq => h p q (occursAt_take hp) (occursAt_take hq)

theorem NoMatch.append_left {a b : List Char} (h : NoMatch (a ++ b)) : NoMatch a :=
  fun p q hp hq => h p q (occursAt_append_left b hp) (occursAt_append_left b hq)

theorem NoMatch.append_right {a b : List Char} (h : NoMatch (a ++ b)) : NoMatch b := by
  intro p q hp hq
  have h2 := h (a.length + p) (a.length + q)
    (occursAt_append_right a hp) (occursAt_append_right a hq)
  omega

theorem noMatch_trimSpace {s : List Char} (h : NoMatch s) : NoMatch (trimSpace s) := by
  unfold trimSpace
  have h1 : NoMatch (List.dropWhile goIsSpace s) := by
    have hsuf : List.dropWhile goIsSpace s <:+ s := List.dropWhile_suffix goIsSpace
    obtain ⟨t, ht⟩ := hsuf
    rw [← ht] at h
    exact h.append_right
  obtain ⟨r, hr⟩ := List.rdropWhile_prefix goIsSpace (List.dropWhile goIsSpace s)
  rw [← hr] at h1
  exact h1.append_left

theorem redacted_head_open : ∀ c ∈ redacted, lcase c ≠ lcase (openTag.headD ' ') := by decide

theorem redacted_head_close : ∀ c ∈ redacted, lcase c ≠ lcase (closeTag.headD ' ') := by decide

theorem open_head_redacted : ∀ c ∈ openTag, lcase c ≠ lcase (redacted.headD ' ') := by decide

theorem close_head_redacted : ∀ c ∈ closeTag, lcase c ≠ lcase (redacted.headD ' ') := by decide

theorem marker_head_open : ∀ c ∈ truncMarker, lcase c ≠ lcase (openTag.headD ' ') := by decide

theorem marker_head_close : ∀ c ∈ truncMarker, lcase c ≠ lcase (closeTag.headD ' ') := by decide

theorem open_head_marker : ∀ c ∈ openTag, lcase c ≠ lcase (truncMarker.headD ' ') := by decide

theorem close_head_marker : ∀ c ∈ closeTag, lcase c ≠ lcase (truncMarker.headD ' ') := by decide

/-- Appending the truncation marker cannot create a redaction-pattern match. -/
theorem NoMatch.append_marker {a : List Char} (h : NoMatch a) :
    NoMatch (a ++ truncMarker) := by
  intro p q hp hq
  by_contra hlt
  push_neg at hlt
  have hp2 : occursAt openTag (a ++ (truncMarker ++ [])) p := by
    rw [List.append_nil]; exact hp
  have hq2 : occursAt closeTag (a ++ (truncMarker ++ [])) q := by
    rw [List.append_nil]; exact hq
  have hptot := occursAt_length openTag_ne_nil hp
  have hqtot := occursAt_length closeTag_ne_nil hq
  rw [List.length_append, truncMarker_length] at hptot hqtot
  rw [openTag_length] at hptot hlt
  rw [closeTag_length] at hqtot
  rcases occursAt_append_mid openTag_ne_nil (by decide) marker_head_open open_head_marker hp2
    with hpa | hpa
  · rcases occursAt_append_mid closeTag_ne_nil (by decide) marker_head_close close_head_marker
      hq2 with hqa | hqa
    · have hq3 := occursAt_of_append_left hq hqa
      have hp3 := occursAt_of_append_left hp hpa
      have := h p q hp3 hq3
      rw [openTag_length] at this
      omega
    · rw [truncMarker_length] at hqa
      rw [openTag_length] at hpa
      omega
  · rw [truncMarker_length] at hpa
    omega

/-- If the leftmost `<private>` has no `</private>` after it, nothing matches. -/
theorem noMatch_of_close_none {s : List Char} {i : Nat}
    (hopen : findCI openTag s = some i)
    (hclose : findCI closeTag (s.drop (i + openTag.length)) = none) : NoMatch s := by
  intro p q hp hq
  by_contra hlt
  push_neg at hlt
  have hpi : i ≤ p := by
    by_contra hpi
    push_neg at hpi
    exact findCI_min hopen p hpi hp
  have hq2 : occursAt closeTag (s.drop (i + openTag.length)) (q - (i + openTag.length)) := by
    rw [occursAt_drop]
    have heq : i + openTag.length + (q - (i + openTag.length)) = q := by omega
    rw [heq]
    exact hq
  exact findCI_none hclose _ hq2

/-- Soundness of the replacement loop: its output contains no match of the
redaction pattern. -/
theorem noMatch_replaceAllF (fuel : Nat) :
    ∀ s : List Char, s.length ≤ fuel → NoMatch (replaceAllF fuel s) := by
  induction fuel with
  | zero =>
    intro s hs
    have hnil : s = [] := List.length_eq_zero.mp (Nat.le_zero.mp hs)
    subst hnil
    show NoMatch []
    intro p q hp hq
    exfalso
    have h1 := occursAt_length openTag_ne_nil hp
    rw [openTag_length, List.length_nil] at h1
    omega
  | succ fuel ih =>
    intro s hs
    rcases hopen : findCI openTag s with _ | i
    · simp only [replaceAllF, hopen]
      exact noMatch_of_no_open (findCI_none hopen)
    · rcases hclose : findCI closeTag (s.drop (i + openTag.length)) with _ | k
      · simp only [replaceAllF, hopen, hclose]
        exact noMatch_of_close_none hopen hclose
      · simp only [replaceAllF, hopen, hclose]
        have hoi : occursAt openTag s i := findCI_some hopen
        have hslen : i + openTag.length ≤ s.length := occursAt_length openTag_ne_nil hoi
        rw [openTag_length] at hslen
        set R := replaceAllF fuel ((s.drop (i + openTag.length)).drop (k + closeTag.length))
          with hR
        have hRnm : NoMatch R := by
          rw [hR]
          apply ih
          simp only [List.length_drop, openTag_length, closeTag_length]
          omega
        have hnoA : ∀ p, ¬ occursAt openTag (s.take i) p := by
          intro p hp
          have hfit := occursAt_length openTag_ne_nil hp
          rw [List.length_take, openTag_length] at hfit
          have hps : occursAt openTag s p := occursAt_take hp
          exact findCI_min hopen p (by omega) hps
        rw [List.append_assoc]
        intro p q hp hq
        by_contra hlt
        push_neg at hlt
        rw [openTag_length] at hlt
        have hAlen : (s.take i).length = i := by
          rw [List.length_take]
          omega
        rcases occursAt_append_mid openTag_ne_nil (by decide) redacted_head_open
            open_head_redacted hp with hpa | hpa
        · rw [openTag_length] at hpa
          exact hnoA p (occursAt_of_append_left hp (by rw [openTag_length]; omega))
        · rw [redacted_length] at hpa
          rcases occursAt_append_mid closeTag_ne_nil (by decide) redacted_head_close
              close_head_redacted hq with hqa | hqa
          · rw [closeTag_length] at hqa
            omega
          · rw [redacted_length] at hqa
            have hpR : occursAt openTag R (p - (s.take i).length - redacted.length) := by
              have h1 := occursAt_of_append_right hp (by omega)
              have h2 := occursAt_of_append_right h1 (by rw [redacted_length]; omega)
              exact h2
            have hqR : occursAt closeTag R (q - (s.take i).length - redacted.length) := by
              have h1 := occursAt_of_append_right hq (by omega)
              have h2 := occursAt_of_append_right h1 (by rw [redacted_length]; omega)
              exact h2
            have := hRnm _ _ hpR hqR
            rw [openTag_length, redacted_length] at this
            omega

/-- A string with no match is a fixed point of the replacement loop. -/
theorem replaceAllF_of_noMatch (fuel : Nat) {s : List Char} (h : NoMatch s) :
    replaceAllF fuel s = s := by
  cases fuel with
  | zero => rfl
  | succ fuel =>
    rcases hopen : findCI openTag s with _ | i
    · simp only [replaceAllF, hopen]
    · rcases hclose : findCI closeTag (s.drop (i + openTag.length)) with _ | k
      · simp only [replaceAllF, hopen, hclose]
      · exfalso
        have h1 := findCI_some hopen
        have h2 := findCI_some hclose
        rw [occursAt_drop] at h2
        have h3 := h i (i + openTag.length + k) h1 h2
        omega

theorem noMatch_replaceAll (s : List Char) : NoMatch (replaceAll s) :=
  noMatch_replaceAllF s.length s (Nat.le_refl _)

theorem replaceAll_of_noMatch {s : List Char} (h : NoMatch s) : replaceAll s = s :=
  replaceAllF_of_noMatch _ h

theorem noMatch_stripPrivateTags (s : List Char) : NoMatch (stripPrivateTags s) :=
  noMatch_trimSpace (noMatch_replaceAll s)

/-! ### Trimming is idempotent -/

theorem dropWhile_head_false {α : Type} {p : α → Bool} :
    ∀ {l : List α} {c : α} {t : List α}, List.dropWhile p l = c :: t → p c = false := by
  intro l
  induction l with
  | nil => intro c t h; simp [List.dropWhile] at h
  | cons a as ih =>
    intro c t h
    rw [List.dropWhile_cons] at h
    by_cases ha : p a = true
    · rw [if_pos ha] at h
      exact ih h
    · rw [if_neg ha] at h
      injection h with h1 _
      subst h1
      cases hpa : p a with
      | false => rfl
      | true => exact absurd hpa ha

theorem trimSpace_idem (s : List Char) : trimSpace (trimSpace s) = trimSpace s := by
  unfold trimSpace
  set u := List.dropWhile goIsSpace s with hu
  have hdv : List.dropWhile goIsSpace (List.rdropWhile goIsSpace u) =
      List.rdropWhile goIsSpace u := by
    rcases hv : List.rdropWhile goIsSpace u with _ | ⟨c, rest⟩
    · rfl
    · obtain ⟨r, hr⟩ := List.rdropWhile_prefix goIsSpace u
      rw [hv] at hr
      have hu2 : List.dropWhile goIsSpace s = c :: (rest ++ r) := by
        rw [← hu, ← hr]
        simp
      have hc : goIsSpace c = false := dropWhile_head_false hu2
      rw [List.dropWhile_cons, hc]
      simp
  rw [hdv, List.rdropWhile_idempotent]

/-- `hasMatch` decides `NoMatch`. -/
theorem noMatch_iff_hasMatch {s : List Char} : NoMatch s ↔ hasMatch s = false := by
  constructor
  · intro h
    rcases hopen : findCI openTag s with _ | i
    · simp [hasMatch, hopen]
    · rcases hclose : findCI closeTag (s.drop (i + openTag.length)) with _ | k
      · simp [hasMatch, hopen, hclose]
      · exfalso
        have h1 := findCI_some hopen
        have h2 := findCI_some hclose
        rw [occursAt_drop] at h2
        have h3 := h i (i + openTag.length + k) h1 h2
        omega
  · intro h
    rcases hopen : findCI openTag s with _ | i
    · exact noMatch_of_no_open (findCI_none hopen)
    · rcases hclose : findCI closeTag (s.drop (i + openTag.length)) with _ | k
      · exact noMatch_of_close_none hopen hclose
      · simp [hasMatch, hopen, hclose] at h

theorem hasMatch_stripPrivateTags (s : List Char) :
    hasMatch (stripPrivateTags s) = false :=
  noMatch_iff_hasMatch.mp (noMatch_stripPrivateTags s)

/-- Truncating a redacted string and appending the truncation marker still
yields no match of the redaction pattern. -/
theorem hasMatch_truncated (s : List Char) (m : Nat) :
    hasMatch ((stripPrivateTags s).take m ++ truncMarker) = false :=
  noMatch_iff_hasMatch.mp (((noMatch_stripPrivateTags s).take m).append_marker)

/-! ### Positional character analysis for the non-greedy match -/

theorem startsWithCI_refl (pat : List Char) : startsWithCI pat pat = true := by
  induction pat with
  | nil => rfl
  | cons p ps ih => simp [startsWithCI, ih]

theorem occursAt_self_append {pat : List Char} (t : List Char) :
    occursAt pat (pat ++ t) 0 := by
  unfold occursAt
  rw [List.drop_zero]
  exact startsWithCI_append t (startsWithCI_refl pat)

theorem occursAt_cons_head {p0 : Char} {pt s : List Char} {p : Nat}
    (h : occursAt (p0 :: pt) s p) :
    ∃ c, s[p]? = some c ∧ lcase c = lcase p0 := by
  unfold occursAt at h
  rcases hdrop : s.drop p with _ | ⟨c, rest⟩
  · rw [hdrop] at h
    simp [startsWithCI] at h
  · rw [hdrop] at h
    simp only [startsWithCI, Bool.and_eq_true, beq_iff_eq] at h
    have hp : p < s.length := by
      have hlen := congrArg List.length hdrop
      simp only [List.length_drop, List.length_cons] at hlen
      omega
    have hgc := List.drop_eq_getElem_cons hp
    rw [hdrop] at hgc
    injection hgc with h1 _
    refine ⟨c, ?_, h.1.symm⟩
    rw [List.getElem?_eq_getElem hp, ← h1]

theorem occursAt_cons_second {p0 p1 : Char} {pt s : List Char} {p : Nat}
    (h : occursAt (p0 :: p1 :: pt) s p) :
    ∃ c, s[p + 1]? = some c ∧ lcase c = lcase p1 := by
  have h2 : occursAt (p1 :: pt) s (p + 1) := by
    unfold occursAt at h ⊢
    rcases hdrop : s.drop p with _ | ⟨c, rest⟩
    · rw [hdrop] at h
      simp [startsWithCI] at h
    · rw [hdrop] at h
      simp only [startsWithCI, Bool.and_eq_true] at h
      have hrest : s.drop (p + 1) = rest := by
        rw [← List.drop_drop, hdrop]
        rfl
      rw [hrest]
      exact h.2
  exact occursAt_cons_head h2

theorem openTag_cons : openTag = '<' :: 'p' :: "rivate>".data := by decide

theorem closeTag_cons : closeTag = '<' :: '/' :: "private>".data := by decide

theorem openTag_lt_only_head :
    ∀ k : Fin openTag.length, lcase (openTag.get k) = '<' → k.val = 0 := by decide

theorem closeTag_lt_only_head :
    ∀ k : Fin closeTag.length, lcase (closeTag.get k) = '<' → k.val = 0 := by decide

/-- No occurrence of the opening delimiter exists in `C ++ closeTag` when `C`
has no character folding to `<`. -/
theorem no_open_in_tail {C : List Char} (hC : ∀ c ∈ C, lcase c ≠ '<') :
    ∀ p, ¬ occursAt openTag (C ++ closeTag) p := by
  intro p hocc
  have hlen := occursAt_length openTag_ne_nil hocc
  rw [List.length_append, openTag_length, closeTag_length] at hlen
  have hocc2 : occursAt ('<' :: 'p' :: "rivate>".data) (C ++ closeTag) p := by
    rw [← openTag_cons]
    exact hocc
  obtain ⟨c, hcel, hclt⟩ := occursAt_cons_head hocc2
  rw [show lcase '<' = '<' from by decide] at hclt
  rcases Nat.lt_or_ge p C.length with h1 | h1
  · rw [List.getElem?_append_left h1] at hcel
    exact hC c (List.getElem?_mem hcel) hclt
  · rw [List.getElem?_append_right h1] at hcel
    have hk : p - C.length < closeTag.length := by
      rw [closeTag_length]
      omega
    rw [List.getElem?_eq_getElem hk] at hcel
    injection hcel with hcel
    have hk0 := closeTag_lt_only_head ⟨p - C.length, hk⟩ (by rw [← hcel] at hclt; exact hclt)
    have hpC : p = C.length := by
      simp only at hk0
      omega
    obtain ⟨c2, hcel2, hclt2⟩ := occursAt_cons_second hocc2
    rw [hpC] at hcel2
    rw [List.getElem?_append_right (by omega), Nat.add_sub_cancel_left] at hcel2
    rw [show closeTag[1]? = some '/' from by decide] at hcel2
    injection hcel2 with hcel2
    rw [← hcel2] at hclt2
    exact absurd hclt2 (by decide)

/-- In `A ++ (openTag ++ (B ++ (closeTag ++ Z)))` with `A`, `B` free of
characters folding to `<`, the first closing delimiter sits right after
`A ++ openTag ++ B`. -/
theorem findCI_close_nested {A B : List Char} (Z : List Char)
    (hA : ∀ c ∈ A, lcase c ≠ '<') (hB : ∀ c ∈ B, lcase c ≠ '<') :
    findCI closeTag (A ++ (openTag ++ (B ++ (closeTag ++ Z)))) =
      some (A.length + (openTag.length + B.length)) := by
  apply findCI_eq_some_of
  · have h0 : occursAt closeTag (closeTag ++ Z) 0 := occursAt_self_append Z
    have h1 := occursAt_append_right B h0
    have h2 := occursAt_append_right openTag h1
    have h3 := occursAt_append_right A h2
    simpa using h3
  · intro p hp hocc
    rw [openTag_length] at hp
    have hocc2 : occursAt ('<' :: '/' :: "private>".data)
        (A ++ (openTag ++ (B ++ (closeTag ++ Z)))) p := by
      rw [← closeTag_cons]
      exact hocc
    obtain ⟨c, hcel, hclt⟩ := occursAt_cons_head hocc2
    rw [show lcase '<' = '<' from by decide] at hclt
    rcases Nat.lt_or_ge p A.length with h1 | h1
    · rw [List.getElem?_append_left h1] at hcel
      exact hA c (List.getElem?_mem hcel) hclt
    · rw [List.getElem?_append_right h1] at hcel
      rcases Nat.lt_or_ge (p - A.length) openTag.length with h2 | h2
      · -- inside the inner opening tag: only its head is `<`
        rw [List.getElem?_append_left h2, List.getElem?_eq_getElem h2] at hcel
        injection hcel with hcel
        have hk0 := openTag_lt_only_head ⟨p - A.length, h2⟩
          (by rw [← hcel] at hclt; exact hclt)
        have hpA : p = A.length := by
          simp only at hk0
          omega
        obtain ⟨c2, hcel2, hclt2⟩ := occursAt_cons_second hocc2
        rw [hpA] at hcel2
        rw [List.getElem?_append_right (by omega), Nat.add_sub_cancel_left] at hcel2
        rw [List.getElem?_append_left (by rw [openTag_length]; omega)] at hcel2
        rw [show openTag[1]? = some 'p' from by decide] at hcel2
        injection hcel2 with hcel2
        rw [← hcel2] at hclt2
        exact absurd hclt2 (by decide)
      · -- inside B
        rw [List.getElem?_append_right h2] at hcel
        have hm : p - A.length - openTag.length < B.length := by
          rw [openTag_length] at h2 ⊢
          omega
        rw [List.getElem?_append_left hm] at hcel
        exact hB c (List.getElem?_mem hcel) hclt

theorem findCI_zero {pat s : List Char} (h : startsWithCI pat s = true) :
    findCI pat s = some 0 :=
  findCI_eq_some_of (show occursAt pat s 0 from by unfold occursAt; rwa [List.drop_zero])
    (fun p hp => absurd hp (Nat.not_lt_zero p))

/-! ### Claims C3 and C4: the redactor -/

/-- **C3** (confirmed).  The redactor is idempotent: for every string `x`,
`stripPrivateTags (stripPrivateTags x) = stripPrivateTags x`. -/
theorem c3_strip_idempotent (x : List Char) :
    stripPrivateTags (stripPrivateTags x) = stripPrivateTags x := by
  unfold stripPrivateTags
  rw [replaceAll_of_noMatch (noMatch_trimSpace (noMatch_replaceAll x))]
  exact trimSpace_idem _

/-- **C4** (counterexample).  On the input
`<private>A<private>B</private>C</private>` — an outer `<private>` span
containing a nested `<private>...</private>` pair — `stripPrivateTags` does
NOT replace the entire outer span with a single `[REDACTED]`: the output is
`[REDACTED]C</private>`, which still contains the outer span's text `C` and
its closing tag, and differs from the single token `[REDACTED]`. -/
theorem c4_counterexample :
    stripPrivateTags ("<private>A<private>B</private>C</private>".data) =
      "[REDACTED]C</private>".data ∧
    containsStr closeTag
      (stripPrivateTags ("<private>A<private>B</private>C</private>".data)) = true ∧
    stripPrivateTags ("<private>A<private>B</private>C</private>".data) ≠
      "[REDACTED]".data :=
  ⟨by decide, by decide, by decide⟩

/-- **C4** (amended).  The pattern is non-greedy: for an outer span containing
a nested opening tag, the replacement runs from the outer opening tag only
through the FIRST (inner) closing delimiter, and everything after it — the
rest of the outer span and the outer closing tag — survives verbatim (modulo
the final whitespace trim).  `A`, `B`, `C` range over segments free of
characters folding to `<`. -/
theorem c4_nested_span_replaced_to_first_close (A B C : List Char)
    (hA : ∀ c ∈ A, lcase c ≠ '<') (hB : ∀ c ∈ B, lcase c ≠ '<')
    (hC : ∀ c ∈ C, lcase c ≠ '<') :
    stripPrivateTags
        (openTag ++ (A ++ (openTag ++ (B ++ (closeTag ++ (C ++ closeTag)))))) =
      trimSpace (redacted ++ (C ++ closeTag)) := by
  set Z := C ++ closeTag with hZ
  set rest := A ++ (openTag ++ (B ++ (closeTag ++ Z))) with hrest
  set s := openTag ++ rest with hs
  have hsw : startsWithCI openTag s = true := by
    rw [hs]
    exact startsWithCI_append rest (startsWithCI_refl _)
  have hopen0 : findCI openTag s = some 0 := findCI_zero hsw
  have hdrop9 : s.drop (0 + openTag.length) = rest := by
    rw [Nat.zero_add, hs, List.drop_left]
  have hclosej : findCI closeTag rest = some (A.length + (openTag.length + B.length)) := by
    rw [hrest]
    exact findCI_close_nested Z hA hB
  have hZfix : ∀ fuel, replaceAllF fuel Z = Z := fun fuel =>
    replaceAllF_of_noMatch fuel (noMatch_of_no_open (no_open_in_tail hC))
  have hrem : rest.drop (A.length + (openTag.length + B.length) + closeTag.length) = Z := by
    have hre : rest = (A ++ (openTag ++ (B ++ closeTag))) ++ Z := by
      rw [hrest]
      simp [List.append_assoc]
    rw [hre, List.drop_left' (by simp only [List.length_append]; omega)]
  obtain ⟨f, hf⟩ : ∃ f, s.length = f + 1 :=
    ⟨8 + rest.length, by rw [hs]; simp only [List.length_append, openTag_length]; omega⟩
  unfold stripPrivateTags replaceAll
  rw [hf]
  simp only [replaceAllF, hopen0, hdrop9, hclosej, hrem, hZfix, List.take_zero,
    List.nil_append]

/-! ### A small populated database used by the witnesses -/

/-- A concrete database: one session, three observations. -/
def wdb : DB :=
  runOps DefaultConfig initDB
    [Op.createSession "s1".data "acme".data "/tmp/acme".data "2024-01-01 10:00:00".data,
     Op.addObservation
       ⟨"s1".data, "bugfix".data, "Fix N+1".data, "Batch loaded users".data, [], "acme".data⟩
       "2024-01-01 10:00:01".data,
     Op.addObservation
       ⟨"s1".data, "decision".data, "Pick SQLite".data, "Chose SQLite".data, [], "acme".data⟩
       "2024-01-01 10:00:02".data,
     Op.addObservation
       ⟨"s1".data, "discovery".data, "Found gotcha".data, "Gotcha".data, [], "acme".data⟩
       "2024-01-01 10:00:03".data]

/-- A constant search oracle: every row matches with rank 0. -/
def wfts : ObsRow → Option Int := fun _ => some 0

/-! ### Claim C2: AddObservation -/

/-- **C2** (confirmed).  Writing `s` for `stripPrivateTags p.content`:
`AddObservation` appends exactly one row whose content is `s` verbatim when
`s.length ≤ MaxObservationLength` (no truncation marker — in particular at
exactly the limit, since the source tests `>`), and otherwise the first
`MaxObservationLength` bytes of `s` followed by `"... [truncated]"`; the
stored title is `stripPrivateTags p.title`, and the returned value is the new
row's id. -/
theorem c2_addObservation_spec (cfg : Config) (db : DB) (p : AddObservationParams)
    (now : List Char) :
    (AddObservation cfg db p now).2 = db.nextObsId ∧
    (AddObservation cfg db p now).1.observations =
      db.observations ++
        [{ id := db.nextObsId, sessionId := p.sessionId, type := p.type,
           title := stripPrivateTags p.title,
           content :=
             if (stripPrivateTags p.content).length ≤ cfg.MaxObservationLength then
               stripPrivateTags p.content
             else
               (stripPrivateTags p.content).take cfg.MaxObservationLength ++ truncMarker,
           toolName := nullableString p.toolName, project := nullableString p.project,
           createdAt := now }] := by
  refine ⟨rfl, ?_⟩
  by_cases h : (stripPrivateTags p.content).length ≤ cfg.MaxObservationLength
  · simp [AddObservation, h, Nat.not_lt.mpr h]
  · simp [AddObservation, h, Nat.lt_of_not_le h]

/-! ### Claim C6: CreateSession idempotence -/

/-- **C6** (confirmed).  When a session row with the id already exists,
`CreateSession` with any (possibly different) project and directory is a
no-op: the database — including the existing row's project, directory and
timestamps — is completely unchanged (`INSERT OR IGNORE`; in the source only
a storage failure could produce an error). -/
theorem c6_createSession_idempotent (db : DB) (id project directory now : List Char)
    (h : db.sessions.any (fun r => r.id == id) = true) :
    CreateSession db id project directory now = db := by
  unfold CreateSession
  rw [if_pos h]

theorem c6_createSession_idempotent_witness :
    (wdb.sessions.any (fun r => r.id == "s1".data) = true) ∧
    CreateSession wdb "s1".data "other-project".data "/elsewhere".data "t9".data = wdb :=
  ⟨by decide,
   c6_createSession_idempotent wdb "s1".data "other-project".data "/elsewhere".data
     "t9".data (by decide)⟩

/-! ### Claim C7: the Search hard cap -/

/-- **C7** (confirmed).  With the hard cap `MaxSearchResults = 20` and a
positive caller limit, `Search` returns at most `min limit 20` results —
never more than 20, whatever limit the caller requests and whatever the FTS
oracle matches. -/
theorem c7_search_cap (cfg : Config) (fts : ObsRow → Option Int) (db : DB)
    (opts : SearchOptions) (hcap : cfg.MaxSearchResults = 20) (hpos : 0 < opts.limit) :
    (Search cfg fts db opts).length ≤ min opts.limit.toNat 20 := by
  unfold Search
  rw [if_neg (by omega), hcap]
  apply le_trans (List.length_take_le _ _)
  split_ifs with h1 <;> omega

theorem c7_search_cap_witness :
    DefaultConfig.MaxSearchResults = 20 ∧ (0 : Int) < 100 ∧
    (Search DefaultConfig wfts wdb ⟨[], [], 100⟩).length ≤ min (Int.toNat 100) 20 :=
  ⟨rfl, by decide, c7_search_cap DefaultConfig wfts wdb ⟨[], [], 100⟩ rfl (by decide)⟩

/-! ### Claim C8: error propagation -/

/-- **C8** (counterexample).  `Stats` does not propagate storage errors: with
all four underlying queries failing, it returns a success result (zero counts
and an empty projects list) instead of an error. -/
theorem c8_counterexample :
    statsOp (.error ()) (.error ()) (.error ()) (.error ()) = Except.ok ⟨0, 0, 0, []⟩ :=
  rfl

/-- **C8** (amended).  `Stats` catches and swallows storage errors: whatever
the outcomes of its four underlying queries — including failures — it returns
a success result, never an error (failed count scans leave the zero value, a
failed projects query yields an empty list, and rows that fail to scan are
skipped); so the propagation policy does not hold for `Stats` (nor for the
session-count scan inside `Timeline`, whose error is likewise ignored). -/
theorem c8_stats_never_errors (q1 q2 q3 : Except Unit Nat)
    (q4 : Except Unit (List (Except Unit (List Char)))) :
    ∃ v, statsOp q1 q2 q3 q4 = Except.ok v := by
  unfold statsOp
  cases q4 with
  | error e => exact ⟨_, rfl⟩
  | ok rows => exact ⟨_, rfl⟩

/-! ### Claim C10: EndSession frame -/

/-- **C10** (confirmed).  `EndSession` changes at most the `ended_at` and
`summary` columns of the session row whose id matches: observations, prompts,
sync chunks and the id counters are untouched; row-by-row, a session with a
different id is fully unchanged and the matching row keeps its id, project,
directory and `started_at` while receiving `ended_at = now` and the
NULL-normalised summary; when no session has the id the whole state is
unchanged (and the `UPDATE` reports no error). -/
theorem c10_endSession_frame (db : DB) (id summary now : List Char) :
    (EndSession db id summary now).observations = db.observations ∧
    (EndSession db id summary now).prompts = db.prompts ∧
    (EndSession db id summary now).syncChunks = db.syncChunks ∧
    (EndSession db id summary now).nextObsId = db.nextObsId ∧
    (EndSession db id summary now).nextPromptId = db.nextPromptId ∧
    List.Forall₂
      (fun r r2 : SessionRow =>
        (r.id ≠ id → r2 = r) ∧
        (r.id = id → r2.id = r.id ∧ r2.project = r.project ∧
          r2.directory = r.directory ∧ r2.startedAt = r.startedAt ∧
          r2.endedAt = some now ∧ r2.summary = nullableString summary))
      db.sessions (EndSession db id summary now).sessions ∧
    ((∀ r ∈ db.sessions, r.id ≠ id) → EndSession db id summary now = db) := by
  refine ⟨rfl, rfl, rfl, rfl, rfl, ?_, ?_⟩
  · show List.Forall₂ _ db.sessions (db.sessions.map _)
    rw [List.forall₂_map_right_iff, List.forall₂_same]
    intro r _
    by_cases hid : r.id = id
    · simp [hid]
    · simp [hid]
  · intro hall
    show { db with sessions := db.sessions.map _ } = db
    have hmap : db.sessions.map
        (fun r => if r.id == id then
          { r with endedAt := some now, summary := nullableString summary } else r) =
        db.sessions := by
      conv_rhs => rw [← List.map_id db.sessions]
      apply List.map_congr_left
      intro r hr
      simp [beq_iff_eq, hall r hr]
    rw [hmap]

theorem c10_endSession_frame_witness :
    (EndSession wdb "s1".data "done".data "t9".data).observations = wdb.observations ∧
    ((∀ r ∈ wdb.sessions, r.id ≠ "zz".data) →
      EndSession wdb "zz".data "x".data "t9".data = wdb) ∧
    EndSession wdb "zz".data "x".data "t9".data = wdb :=
  ⟨(c10_endSession_frame wdb "s1".data "done".data "t9".data).1,
   (c10_endSession_frame wdb "zz".data "x".data "t9".data).2.2.2.2.2.2,
   (c10_endSession_frame wdb "zz".data "x".data "t9".data).2.2.2.2.2.2 (by decide)⟩

/-! ### Claim C9: FormatContext emptiness -/

theorem insertionSort_nil_iff {α : Type} (r : α → α → Prop) [DecidableRel r] (l : List α) :
    List.insertionSort r l = [] ↔ l = [] := by
  constructor
  · intro h
    have h2 : l.length = 0 := by
      rw [← List.length_insertionSort r l, h]
      rfl
    exact List.length_eq_zero.mp h2
  · rintro rfl
    rfl

theorem recentSessions_nil_iff (db : DB) (project : List Char) :
    RecentSessions db project 5 = [] ↔ sessionsFor db project = [] := by
  unfold RecentSessions
  rw [if_neg (by decide : ¬ (5 : Int) ≤ 0)]
  rw [List.map_eq_nil_iff, List.take_eq_nil_iff, insertionSort_nil_iff]
  simp

theorem recentPrompts_nil_iff (db : DB) (project : List Char) :
    RecentPrompts db project 10 = [] ↔ promptsFor db project = [] := by
  unfold RecentPrompts
  rw [if_neg (by decide : ¬ (10 : Int) ≤ 0)]
  rw [List.take_eq_nil_iff, insertionSort_nil_iff]
  simp

theorem recentObservations_nil_iff (cfg : Config) (db : DB) (project : List Char)
    (hctx : 0 < cfg.MaxContextResults) :
    RecentObservations cfg db project (cfg.MaxContextResults : Int) = [] ↔
      obsFor db project = [] := by
  unfold RecentObservations
  rw [if_neg (by omega : ¬ (cfg.MaxContextResults : Int) ≤ 0)]
  rw [List.take_eq_nil_iff, insertionSort_nil_iff]
  constructor
  · rintro (h | h)
    · exfalso
      rw [Int.toNat_natCast] at h
      omega
    · exact h
  · intro h
    exact Or.inr h

/-- **C9** (confirmed).  With a positive `MaxContextResults` (default 20),
`FormatContext project` returns the empty string iff no session, no user
prompt and no observation matches the project filter; whenever at least one
of the three exists the digest is non-empty (it starts with the memory
header). -/
theorem c9_formatContext_empty_iff (cfg : Config) (db : DB) (project : List Char)
    (hctx : 0 < cfg.MaxContextResults) :
    FormatContext cfg db project = [] ↔
      (sessionsFor db project = [] ∧ promptsFor db project = [] ∧
       obsFor db project = []) := by
  have hchain : ∀ (b : List Char) (c : Bool) (x y z : List Char),
      b ≠ [] → (if c then b else ((b ++ x) ++ y) ++ z) ≠ [] := by
    intro b c x y z hb
    cases c
    · simp only [Bool.false_eq_true, if_false]
      simp [List.append_eq_nil, hb]
    · simpa using hb
  have hne : ("## Memory from Previous Sessions\n\n".data : List Char) ≠ [] := by decide
  unfold FormatContext
  dsimp only
  rcases hcond : (RecentSessions db project 5).isEmpty &&
      (RecentObservations cfg db project (cfg.MaxContextResults : Int)).isEmpty &&
      (RecentPrompts db project 10).isEmpty with _ | _
  · -- some query is non-empty: the digest starts with the header
    rw [if_neg Bool.false_ne_true]
    constructor
    · intro h
      exact absurd h (hchain _ _ _ _ _ (hchain _ _ _ _ _ (hchain _ _ _ _ _ hne)))
    · intro ⟨hs, hp, ho⟩
      exfalso
      rw [Bool.and_eq_false_iff, Bool.and_eq_false_iff] at hcond
      have hs2 := (recentSessions_nil_iff db project).mpr hs
      have hp2 := (recentPrompts_nil_iff db project).mpr hp
      have ho2 := (recentObservations_nil_iff cfg db project hctx).mpr ho
      rcases hcond with (hc | hc) | hc <;>
        simp [hs2, hp2, ho2, List.isEmpty_iff] at hc
  · -- all three queries are empty
    rw [if_pos rfl]
    rw [Bool.and_eq_true, Bool.and_eq_true] at hcond
    obtain ⟨⟨h1, h2⟩, h3⟩ := hcond
    rw [List.isEmpty_iff] at h1 h2 h3
    constructor
    · intro _
      exact ⟨(recentSessions_nil_iff db project).mp h1,
        (recentPrompts_nil_iff db project).mp h3,
        (recentObservations_nil_iff cfg db project hctx).mp h2⟩
    · intro _
      rfl

theorem c9_formatContext_empty_iff_witness :
    0 < DefaultConfig.MaxContextResults ∧
    (FormatContext DefaultConfig wdb "nobody".data = [] ↔
      (sessionsFor wdb "nobody".data = [] ∧ promptsFor wdb "nobody".data = [] ∧
       obsFor wdb "nobody".data = [])) :=
  ⟨by decide, c9_formatContext_empty_iff DefaultConfig wdb "nobody".data (by decide)⟩

/-! ### Claim C1: no private span in returned observations -/

/-- The database after storing an observation whose content has an unclosed
`<private>` tag. -/
def c1db : DB :=
  runOps DefaultConfig initDB
    [Op.createSession "s1".data "p".data "/d".data "t0".data,
     Op.addObservation ⟨"s1".data, "note".data, "t".data, "<private>secret".data, [], []⟩
       "t1".data]

/-- **C1** (counterexample).  After `CreateSession` followed by one
`AddObservation` whose content is `"<private>secret"` — an opening tag with
no closing tag — the read `GetObservation` returns an observation whose
content still contains the substring `"<private>"`: the redactor removes only
complete `<private>...</private>` spans, so the claimed invariant fails. -/
theorem c1_counterexample :
    (GetObservation c1db 1).any (fun o => containsStr "<private>".data o.content) = true ∧
    (GetObservation c1db 1).map (fun o => o.content) = some "<private>secret".data :=
  ⟨by decide, by decide⟩

/-- No complete `<private>...</private>` span in the stored title or content. -/
def rowClean (o : ObsRow) : Prop :=
  hasMatch o.title = false ∧ hasMatch o.content = false

/-- Every operation except `Import` writes only redacted observation rows. -/
theorem runOps_no_import_clean (cfg : Config) (ops : List Op)
    (hno : ∀ op ∈ ops, op.isImport = false) :
    ∀ db : DB, (∀ o ∈ db.observations, rowClean o) →
      ∀ o ∈ (runOps cfg db ops).observations, rowClean o := by
  induction ops with
  | nil => exact fun db h o ho => h o ho
  | cons op rest ih =>
    intro db h
    have hop : op.isImport = false := hno op (by simp)
    have hrest : ∀ op2 ∈ rest, op2.isImport = false := fun op2 h2 => hno op2 (by simp [h2])
    show ∀ o ∈ (runOps cfg (applyOp cfg db op) rest).observations, rowClean o
    apply ih hrest
    intro o ho
    cases op with
    | createSession id project directory now =>
      have hobs : (CreateSession db id project directory now).observations =
          db.observations := by
        unfold CreateSession
        split <;> rfl
      rw [show applyOp cfg db (.createSession id project directory now) =
        CreateSession db id project directory now from rfl, hobs] at ho
      exact h o ho
    | endSession id summary now => exact h o ho
    | addObservation p now =>
      rw [show applyOp cfg db (.addObservation p now) = (AddObservation cfg db p now).1
        from rfl] at ho
      unfold AddObservation at ho
      simp only [List.mem_append, List.mem_singleton] at ho
      rcases ho with ho | ho
      · exact h o ho
      · subst ho
        refine ⟨hasMatch_stripPrivateTags _, ?_⟩
        dsimp only
        split
        · exact hasMatch_truncated _ _
        · exact hasMatch_stripPrivateTags _
    | addPrompt p now => exact h o ho
    | importData d =>
      exfalso
      simp [Op.isImport] at hop
    | recordSyncedChunk cid =>
      have hobs : (RecordSyncedChunk db cid).observations = db.observations := by
        unfold RecordSyncedChunk
        split <;> rfl
      rw [show applyOp cfg db (.recordSyncedChunk cid) = RecordSyncedChunk db cid
        from rfl, hobs] at ho
      exact h o ho

theorem mem_of_mem_sort_take {α : Type} {r : α → α → Prop} [DecidableRel r]
    {l : List α} {n : Nat} {a : α} (h : a ∈ (List.insertionSort r l).take n) : a ∈ l :=
  (List.perm_insertionSort r l).mem_iff.mp ((List.take_sublist n _).subset h)

theorem obsFor_subset {db : DB} {project : List Char} {o : ObsRow}
    (h : o ∈ obsFor db project) : o ∈ db.observations := by
  unfold obsFor at h
  split at h
  · exact h
  · exact List.mem_of_mem_filter h

theorem mem_recentObservations {cfg : Config} {db : DB} {project : List Char}
    {limit : Int} {o : ObsRow} (h : o ∈ RecentObservations cfg db project limit) :
    o ∈ db.observations := by
  unfold RecentObservations at h
  exact obsFor_subset (mem_of_mem_sort_take h)

theorem mem_sessionObservations {db : DB} {sid : List Char} {limit : Int} {o : ObsRow}
    (h : o ∈ SessionObservations db sid limit) : o ∈ db.observations := by
  unfold SessionObservations at h
  exact List.mem_of_mem_filter (mem_of_mem_sort_take h)

theorem mem_search {cfg : Config} {fts : ObsRow → Option Int} {db : DB}
    {opts : SearchOptions} {x : ObsRow × Int} (h : x ∈ Search cfg fts db opts) :
    x.1 ∈ db.observations := by
  unfold Search at h
  have h1 := mem_of_mem_sort_take h
  have h2 : x ∈ db.observations.filterMap (fun o => (fts o).map (fun r => (o, r))) := by
    split at h1
    · split at h1
      · exact h1
      · exact List.mem_of_mem_filter h1
    · split at h1
      · exact List.mem_of_mem_filter h1
      · exact List.mem_of_mem_filter (List.mem_of_mem_filter h1)
  obtain ⟨o, ho, hmap⟩ := List.mem_filterMap.mp h2
  rcases hfts : fts o with _ | rk
  · rw [hfts] at hmap
    simp at hmap
  · rw [hfts] at hmap
    simp at hmap
    rw [← hmap]
    exact ho

theorem timeline_members {db : DB} {oid : Nat} {b a : Int} {tr : TimelineResult}
    (h : Timeline db oid b a = some tr) :
    tr.focus ∈ db.observations ∧ (∀ o ∈ tr.before, o ∈ db.observations) ∧
      (∀ o ∈ tr.after, o ∈ db.observations) := by
  unfold Timeline at h
  rcases hget : GetObservation db oid with _ | focus
  · rw [hget] at h
    simp at h
  · rw [hget] at h
    simp only [Option.some.injEq] at h
    subst h
    refine ⟨List.mem_of_find?_eq_some hget, ?_, ?_⟩
    · intro o ho
      dsimp only at ho
      rw [List.mem_reverse] at ho
      exact List.mem_of_mem_filter (mem_of_mem_sort_take ho)
    · intro o ho
      dsimp only at ho
      exact List.mem_of_mem_filter (mem_of_mem_sort_take ho)

/-- **C1** (amended).  Excluding `Import` — which inserts exported rows
verbatim — after any sequence of engine operations from a fresh database,
every observation returned by any read operation (`GetObservation`,
`RecentObservations`, `AllObservations`, `SessionObservations`, `Search`,
`Timeline`) contains no complete `<private>...</private>` span (no match of
the redaction pattern) in its title or content.  The bare substring
`<private>` can survive when the tag is unclosed, hence the weakening from
"no `<private>` substring" to "no complete span". -/
theorem c1_no_private_span_returned (cfg : Config) (ops : List Op)
    (hno : ∀ op ∈ ops, op.isImport = false) :
    (∀ id o, GetObservation (runOps cfg initDB ops) id = some o → rowClean o) ∧
    (∀ project limit o, o ∈ RecentObservations cfg (runOps cfg initDB ops) project limit →
      rowClean o) ∧
    (∀ project limit o, o ∈ AllObservations cfg (runOps cfg initDB ops) project limit →
      rowClean o) ∧
    (∀ sid limit o, o ∈ SessionObservations (runOps cfg initDB ops) sid limit →
      rowClean o) ∧
    (∀ fts opts x, x ∈ Search cfg fts (runOps cfg initDB ops) opts → rowClean x.1) ∧
    (∀ id b a tr, Timeline (runOps cfg initDB ops) id b a = some tr →
      rowClean tr.focus ∧ (∀ o ∈ tr.before, rowClean o) ∧ (∀ o ∈ tr.after, rowClean o)) := by
  have hinv : ∀ o ∈ (runOps cfg initDB ops).observations, rowClean o :=
    runOps_no_import_clean cfg ops hno initDB (by intro o ho; simp [initDB] at ho)
  refine ⟨?_, ?_, ?_, ?_, ?_, ?_⟩
  · intro id o h
    exact hinv o (List.mem_of_find?_eq_some h)
  · intro project limit o h
    exact hinv o (mem_recentObservations h)
  · intro project limit o h
    exact hinv o (mem_recentObservations h)
  · intro sid limit o h
    exact hinv o (mem_sessionObservations h)
  · intro fts opts x h
    exact hinv x.1 (mem_search h)
  · intro id b a tr h
    obtain ⟨h1, h2, h3⟩ := timeline_members h
    exact ⟨hinv _ h1, fun o ho => hinv o (h2 o ho), fun o ho => hinv o (h3 o ho)⟩

/-- The operations used by the C1 witness. -/
def c1ops : List Op :=
  [Op.createSession "s1".data "p".data "/d".data "t0".data,
   Op.addObservation ⟨"s1".data, "note".data, "Title".data, "hello".data, [], []⟩ "t1".data]

/-! ### Claim C5: Timeline -/

instance : IsTotal ObsRow (fun x y => y.id ≤ x.id) :=
  ⟨fun a b => (Nat.le_total a.id b.id).symm⟩

instance : IsTrans ObsRow (fun x y => y.id ≤ x.id) :=
  ⟨fun _ _ _ hab hbc => Nat.le_trans hbc hab⟩

instance : IsTotal ObsRow (fun x y => x.id ≤ y.id) :=
  ⟨fun a b => Nat.le_total a.id b.id⟩

instance : IsTrans ObsRow (fun x y => x.id ≤ y.id) :=
  ⟨fun _ _ _ hab hbc => Nat.le_trans hab hbc⟩

/-- The generic facts about `take n` of an insertion sort of a list with
distinct ids, for a total transitive comparison `r`: the taken rows are
`r`-sorted with pairwise distinct ids, belong to the pool, and `r`-precede
every pool row left out. -/
theorem sort_take_facts (r : ObsRow → ObsRow → Prop) [DecidableRel r]
    [IsTotal ObsRow r] [IsTrans ObsRow r] (pool : List ObsRow) (n : Nat)
    (hnd : (pool.map ObsRow.id).Nodup) :
    ((List.insertionSort r pool).take n).length = min n pool.length ∧
    List.Pairwise (fun x y => r x y ∧ x.id ≠ y.id) ((List.insertionSort r pool).take n) ∧
    (∀ x ∈ (List.insertionSort r pool).take n, x ∈ pool) ∧
    (∀ y ∈ pool, y ∉ (List.insertionSort r pool).take n →
      ∀ x ∈ (List.insertionSort r pool).take n, r x y ∧ x.id ≠ y.id) := by
  set srt := List.insertionSort r pool with hsrt
  have hperm : List.Perm srt pool := List.perm_insertionSort r pool
  have hsorted : List.Pairwise r srt := List.sorted_insertionSort r pool
  have hndsrt : (srt.map ObsRow.id).Nodup := (hperm.map ObsRow.id).nodup_iff.mpr hnd
  have hnepw : List.Pairwise (fun x y : ObsRow => x.id ≠ y.id) srt :=
    List.pairwise_map.mp hndsrt
  have hboth : List.Pairwise (fun x y => r x y ∧ x.id ≠ y.id) srt := hsorted.and hnepw
  have hsplit : List.Pairwise (fun x y => r x y ∧ x.id ≠ y.id)
      (srt.take n ++ srt.drop n) := by
    rw [List.take_append_drop]
    exact hboth
  have hcross := (List.pairwise_append.mp hsplit).2.2
  refine ⟨?_, ?_, ?_, ?_⟩
  · rw [List.length_take, hsrt, List.length_insertionSort]
  · exact hboth.sublist (List.take_sublist n srt)
  · exact fun x hx => hperm.mem_iff.mp ((List.take_sublist n srt).subset hx)
  · intro y hy hyn x hx
    have hysrt : y ∈ srt := hperm.mem_iff.mpr hy
    have hydrop : y ∈ srt.drop n := by
      have hysplit : y ∈ srt.take n ++ srt.drop n := by
        rw [List.take_append_drop]
        exact hysrt
      rcases List.mem_append.mp hysplit with hc | hc
      · exact absurd hc hyn
      · exact hc
    exact hcross x hx y hydrop

/-- **C5** (confirmed).  For every store state with distinct observation ids
and every pivot id: a missing pivot makes `Timeline` fail with NotFound
(`none`); non-positive `before`/`after` each default to 5; and on success the
result carries the pivot as focus, at most `before` rows of the same session
with the largest ids strictly below the pivot in strictly ascending id order
(every eligible row left out has a smaller id than every row shown), at most
`after` rows with the smallest ids strictly above the pivot in strictly
ascending id order (every eligible row left out has a larger id), the owning
session — `none` when the session row is missing, without failing — and the total observation
count of that session. -/
theorem c5_timeline_spec (db : DB) (hids : (db.observations.map ObsRow.id).Nodup)
    (oid : Nat) (before after : Int) :
    (GetObservation db oid = none → Timeline db oid before after = none) ∧
    (before ≤ 0 → Timeline db oid before after = Timeline db oid 5 after) ∧
    (after ≤ 0 → Timeline db oid before after = Timeline db oid before 5) ∧
    (∀ focus, GetObservation db oid = some focus →
      focus.id = oid ∧
      ∃ tr, Timeline db oid before after = some tr ∧
        tr.focus = focus ∧
        tr.before.length =
          min (if before ≤ 0 then (5 : Int) else before).toNat
            (beforePool db focus.sessionId oid).length ∧
        List.Pairwise (fun x y : ObsRow => x.id < y.id) tr.before ∧
        (∀ x ∈ tr.before, x ∈ beforePool db focus.sessionId oid) ∧
        (∀ y ∈ beforePool db focus.sessionId oid, y ∉ tr.before →
          ∀ x ∈ tr.before, y.id < x.id) ∧
        tr.after.length =
          min (if after ≤ 0 then (5 : Int) else after).toNat
            (afterPool db focus.sessionId oid).length ∧
        List.Pairwise (fun x y : ObsRow => x.id < y.id) tr.after ∧
        (∀ x ∈ tr.after, x ∈ afterPool db focus.sessionId oid) ∧
        (∀ y ∈ afterPool db focus.sessionId oid, y ∉ tr.after →
          ∀ x ∈ tr.after, x.id < y.id) ∧
        (∀ s, tr.sessionInfo = some s → s ∈ db.sessions ∧ s.id = focus.sessionId) ∧
        (tr.sessionInfo = none → ∀ s ∈ db.sessions, s.id ≠ focus.sessionId) ∧
        tr.totalInRange = sessionObsCount db focus.sessionId) := by
  refine ⟨?_, ?_, ?_, ?_⟩
  · intro h
    unfold Timeline
    dsimp only
    rw [h]
  · intro h
    unfold Timeline
    rw [if_pos h, if_neg (by decide : ¬ (5 : Int) ≤ 0)]
  · intro h
    unfold Timeline
    rw [if_pos h, if_neg (by decide : ¬ (5 : Int) ≤ 0)]
  · intro focus hget
    have hfid : focus.id = oid := by
      have hpred := List.find?_some hget
      simpa using hpred
    refine ⟨hfid, ?_⟩
    have hndb : ((beforePool db focus.sessionId oid).map ObsRow.id).Nodup :=
      hids.sublist ((List.filter_sublist _).map ObsRow.id)
    have hnda : ((afterPool db focus.sessionId oid).map ObsRow.id).Nodup :=
      hids.sublist ((List.filter_sublist _).map ObsRow.id)
    obtain ⟨hbl, hbpw, hbmem, hbcross⟩ :=
      sort_take_facts (fun x y : ObsRow => y.id ≤ x.id)
        (beforePool db focus.sessionId oid)
        (if before ≤ 0 then (5 : Int) else before).toNat hndb
    obtain ⟨hal, hapw, hamem, hacross⟩ :=
      sort_take_facts (fun x y : ObsRow => x.id ≤ y.id)
        (afterPool db focus.sessionId oid)
        (if after ≤ 0 then (5 : Int) else after).toNat hnda
    unfold Timeline
    dsimp only
    rw [hget]
    refine ⟨_, rfl, rfl, ?_, ?_, ?_, ?_, ?_, ?_, ?_, ?_, ?_, ?_, rfl⟩
    · simp
    · rw [List.pairwise_reverse]
      exact hbpw.imp (fun h => Nat.lt_of_le_of_ne h.1 (Ne.symm h.2))
    · intro x hx
      rw [List.mem_reverse] at hx
      exact hbmem x hx
    · intro y hy hyn x hx
      rw [List.mem_reverse] at hx
      rw [List.mem_reverse] at hyn
      have := hbcross y hy hyn x hx
      exact Nat.lt_of_le_of_ne this.1 (Ne.symm this.2)
    · exact hal
    · exact hapw.imp (fun h => Nat.lt_of_le_of_ne h.1 h.2)
    · exact hamem
    · intro y hy hyn x hx
      have := hacross y hy hyn x hx
      exact Nat.lt_of_le_of_ne this.1 this.2
    · intro s hs
      have hmem := List.mem_of_find?_eq_some hs
      have hpred := List.find?_some hs
      exact ⟨hmem, by simpa using hpred⟩
    · intro hnone s hs
      have := List.find?_eq_none.mp hnone s hs
      simpa using this

theorem c5_timeline_spec_witness :
    (wdb.observations.map ObsRow.id).Nodup ∧
    GetObservation wdb 99 = none ∧
    Timeline wdb 99 1 1 = none ∧
    (Timeline wdb 2 1 1).isSome = true := by
  refine ⟨by decide, by decide, (c5_timeline_spec wdb (by decide) 99 1 1).1 (by decide), ?_⟩
  obtain ⟨-, tr, htr, -⟩ := (c5_timeline_spec wdb (by decide) 2 1 1).2.2.2
    ⟨2, "s1".data, "decision".data, "Pick SQLite".data, "Chose SQLite".data, none,
      some "acme".data, "2024-01-01 10:00:02".data⟩ (by decide)
  rw [htr]
  rfl

theorem c4_nested_span_replaced_to_first_close_witness :
    (∀ c ∈ "A".data, lcase c ≠ '<') ∧ (∀ c ∈ "B".data, lcase c ≠ '<') ∧
    (∀ c ∈ "C".data, lcase c ≠ '<') ∧
    stripPrivateTags
        (openTag ++ ("A".data ++ (openTag ++ ("B".data ++
          (closeTag ++ ("C".data ++ closeTag)))))) =
      trimSpace (redacted ++ ("C".data ++ closeTag)) :=
  ⟨by decide, by decide, by decide,
   c4_nested_span_replaced_to_first_close "A".data "B".data "C".data
     (by decide) (by decide) (by decide)⟩

theorem c1_no_private_span_returned_witness :
    (∀ op ∈ c1ops, op.isImport = false) ∧
    GetObservation (runOps DefaultConfig initDB c1ops) 1 =
      some ⟨1, "s1".data, "note".data, "Title".data, "hello".data, none, none, "t1".data⟩ ∧
    rowClean ⟨1, "s1".data, "note".data, "Title".data, "hello".data, none, none, "t1".data⟩ :=
  ⟨by decide, by decide,
   (c1_no_private_span_returned DefaultConfig c1ops (by decide)).1 1 _ (by decide)⟩

end Engram
